import Mathlib

/-!
Verification of the workload-collocation-agent core (owca/resctrl.py,
owca/containers.py and the allocation-merge engine) against its
natural-language specification.  Python strings are modelled as `List Char`
where character-level operations matter and as `String` otherwise; Python
`None` is `Option.none`; Python exceptions are the `PyErr` error type of an
`Except` result.
-/

/-- Python exception kinds raised by the embedded code. -/
inductive PyErr where
  | fileNotFound
  | assertionError
  | typeError
  | attributeError
  | keyError
  | valueError (msg : String)
  deriving DecidableEq, Repr

/-! ## Character-list utilities mirroring Python `str` operations -/

/-- Model of `s[s.find(c)+1:]` restricted to the found case: the suffix of
`s` after the first occurrence of `c`, or `none` when `c` does not occur. -/
def afterFirst (c : Char) : List Char → Option (List Char)
  | [] => none
  | x :: xs => if x = c then some xs else afterFirst c xs

/-- Model of Python `s.split(c)` for a one-character separator. -/
def splitOnChar (c : Char) : List Char → List (List Char)
  | [] => [[]]
  | x :: xs =>
    let r := splitOnChar c xs
    if x = c then [] :: r
    else
      match r with
      | [] => [[x]]
      | y :: ys => (x :: y) :: ys

/-- Model of splitting `s` at the first occurrence of `c`
(`s[:s.find(c)]`, `s[s.find(c)+1:]`); `none` when `c` does not occur. -/
def breakAtFirst (c : Char) : List Char → Option (List Char × List Char)
  | [] => none
  | x :: xs =>
    if x = c then some ([], xs)
    else
      match breakAtFirst c xs with
      | none => none
      | some (d, v) => some (x :: d, v)

/-- Joining parts with a one-character separator (inverse of `splitOnChar`). -/
def joinSep (c : Char) : List (List Char) → List Char
  | [] => []
  | [e] => e
  | e :: es => e ++ c :: joinSep c es

/-! ## `_parse_schemata_file_row` (owca/resctrl.py:515-558) -/

/-- Loop body of `_parse_schemata_file_row`: iterates over the
`;`-separated domain entries, accumulating the `domains` dict (modelled as
an insertion-ordered association list) and raising `ValueError` messages
exactly as the source does. -/
def parseRowEntries : List (List Char) → List (List Char × List Char) →
    Except String (List (List Char × List Char))
  | [], acc => .ok acc
  | e :: es, acc =>
    if e = [] then .error "domain cannot be empty"
    else
      match breakAtFirst '=' e with
      | none => .error "Value separator is missing"
      | some (d, v) =>
        if d = [] then .error "domain_id cannot be empty!"
        else if v = [] then .error "value cannot be empty!"
        else if d ∈ acc.map Prod.fst then .error "Conflicting domain id found!"
        else parseRowEntries es (acc ++ [(d, v)])

/-- Embedding of `_parse_schemata_file_row`: empty line parses to the empty
dict; otherwise everything up to and including the first `:` is dropped
(nothing is dropped when there is no `:`, as `find` returns `-1`), the rest
is split on `;` and the entries are parsed in order. -/
def parse_schemata_file_row (line : List Char) : Except String (List (List Char × List Char)) :=
  if line = [] then .ok []
  else parseRowEntries (splitOnChar ';' ((afterFirst ':' line).getD line)) []

/-! ## `check_cbm_bits` (owca/resctrl.py:570-599) -/

/-- Value of one hexadecimal digit, `none` for a non-hex character. -/
def hexVal (c : Char) : Option Nat :=
  if '0' ≤ c ∧ c ≤ '9' then some (c.toNat - '0'.toNat)
  else if 'a' ≤ c ∧ c ≤ 'f' then some (c.toNat - 'a'.toNat + 10)
  else if 'A' ≤ c ∧ c ≤ 'F' then some (c.toNat - 'A'.toNat + 10)
  else none

/-- Helper of `parseHexNat` accumulating digit values. -/
def parseHexNatGo : List Char → Nat → Option Nat
  | [], acc => some acc
  | d :: ds, acc =>
    match hexVal d with
    | none => none
    | some v => parseHexNatGo ds (acc * 16 + v)

/-- Model of Python `int(s, 16)` on a plain string of hex digits (signs,
whitespace and an `0x` marker are never produced by this program);
`none` models the `ValueError` raised by `int`. -/
def parseHexNat : List Char → Option Nat
  | [] => none
  | ds => parseHexNatGo ds 0

/-- Value of one decimal digit, `none` otherwise. -/
def decVal (c : Char) : Option Nat :=
  if '0' ≤ c ∧ c ≤ '9' then some (c.toNat - '0'.toNat) else none

/-- Helper of `parseDecNat` accumulating digit values. -/
def parseDecNatGo : List Char → Nat → Option Nat
  | [], acc => some acc
  | d :: ds, acc =>
    match decVal d with
    | none => none
    | some v => parseDecNatGo ds (acc * 10 + v)

/-- Model of Python `int(s)` on a plain string of decimal digits. -/
def parseDecNat : List Char → Option Nat
  | [] => none
  | ds => parseDecNatGo ds 0

/-- Little-endian binary digits of `n` without leading zeros, computed with
explicit fuel so that the definition is structural (fuel `n` always
suffices). -/
def natBitsAux : Nat → Nat → List Bool
  | 0, _ => []
  | fuel + 1, n => if n = 0 then [] else decide (n % 2 = 1) :: natBitsAux fuel (n / 2)

/-- Little-endian binary digits of `n` without leading zeros. -/
def natBitsLE (n : Nat) : List Bool := natBitsAux n n

/-- Model of Python `format(n, 'b')` as a list of bits, most significant
first: `[false]` (the string `"0"`) for zero, otherwise the binary digits
without leading zeros. -/
def binStr (n : Nat) : List Bool :=
  if n = 0 then [false] else (natBitsLE n).reverse

/-- Loop of `check_cbm_bits` over the binary digits: counts enabled bits and
raises once a `1` appears after a run of `1`s has already ended.  State:
accumulated count, `series_of_ones_finished`, and `previous == '1'`. -/
def cbmLoop : List Bool → Nat → Bool → Bool → Except String Nat
  | [], count, _, _ => .ok count
  | b :: rest, count, finished, previous =>
    if b then
      if finished then
        .error "Bit series of ones in mask must occur without a gap between them"
      else cbmLoop rest (count + 1) finished true
    else cbmLoop rest count (finished || previous) false

/-- Embedding of `check_cbm_bits(mask, cbm_mask, min_cbm_bits)`: parses the
hexadecimal mask and maximal mask, rejects a mask above the maximum, scans
the binary representation for a gap in the run of ones, then parses the
decimal minimum and rejects a run shorter than it; every failure is a
Python `ValueError`, so the result is `Except String`. -/
def check_cbm_bits (mask cbm_mask min_cbm_bits : List Char) : Except String Unit :=
  match parseHexNat mask with
  | none => .error "invalid literal for int() with base 16"
  | some m =>
    match parseHexNat cbm_mask with
    | none => .error "invalid literal for int() with base 16"
    | some cbm =>
      if cbm < m then .error "Mask is bigger than allowed"
      else
        match cbmLoop (binStr m) 0 false false with
        | .error e => .error e
        | .ok nbits =>
          match parseDecNat min_cbm_bits with
          | none => .error "invalid literal for int() with base 10"
          | some mn =>
            if nbits < mn then .error "cbm bits. Requires minimum"
            else .ok ()

/-! ## `RDTAllocation` and `RDTAllocationValue` (owca/resctrl.py:304-513) -/

/-- Embedding of the frozen dataclass `RDTAllocation`: all three fields
default to `None` in the source, so each is an `Option`. -/
structure RDTAllocation where
  name : Option String := none
  l3 : Option String := none
  mb : Option String := none
  deriving DecidableEq, Repr

/-- Constructor-argument context of `RDTAllocationValue` that
`calculate_changeset` and `validate` merely thread through `_copy`
(resgroup/cgroup identities and the platform RDT parameters). -/
structure RDTContext where
  resgroup_name : String
  cgroup_path : String
  platform_sockets : Nat
  rdt_mb_control_enabled : Bool
  rdt_cbm_mask : String
  rdt_min_cbm_bits : String
  deriving DecidableEq, Repr

/-- Embedding of the dataclass `RDTAllocationValue` (a wrapper over an
immutable `RDTAllocation`); `source_resgroup` is the optional group to
clean up afterwards, dropped by `_copy`. -/
structure RDTAllocationValue where
  rdt_allocation : RDTAllocation
  ctx : RDTContext
  source_resgroup : Option String := none
  deriving DecidableEq, Repr

/-- Embedding of `RDTAllocationValue._copy`: a fresh value holding
`rdt_allocation` with the receiver's context and no `source_resgroup`. -/
def RDTAllocationValue.copy (v : RDTAllocationValue) (a : RDTAllocation) : RDTAllocationValue :=
  { rdt_allocation := a, ctx := v.ctx, source_resgroup := none }

/-- Python `a or b` on optional strings: `a` when `a` is truthy (present
and non-empty), otherwise `b`. -/
def pyOrStr (a b : Option String) : Option String :=
  match a with
  | some s => if s = "" then b else some s
  | none => b

/-- Python truthiness of an optional string. -/
def pyTruthy (a : Option String) : Bool :=
  match a with
  | some s => s ≠ ""
  | none => false

/-- Embedding of `RDTAllocationValue.calculate_changeset(current)`
(owca/resctrl.py:434-479), returning `(target, changeset)`.  `self` is the
new value.  When `current` is `None` or carries a different group name the
result is `(new, new)`; otherwise the target merges with Python `or`
fallback and the changeset keeps exactly the fields that are not `None`
and differ from `current`, or is `None` when no field changed. -/
def calculate_changeset (new : RDTAllocationValue) (current : Option RDTAllocationValue) :
    RDTAllocationValue × Option RDTAllocationValue :=
  match current with
  | none => (new, some new)
  | some cur =>
    if cur.rdt_allocation.name ≠ new.rdt_allocation.name then (new, some new)
    else
      let target_rdt_allocation : RDTAllocation :=
        { name := cur.rdt_allocation.name
          l3 := pyOrStr new.rdt_allocation.l3 cur.rdt_allocation.l3
          mb := pyOrStr new.rdt_allocation.mb cur.rdt_allocation.mb }
      let target := cur.copy target_rdt_allocation
      let l3_new := new.rdt_allocation.l3.isSome &&
        decide (cur.rdt_allocation.l3 ≠ new.rdt_allocation.l3)
      let changeset_l3 := if l3_new then new.rdt_allocation.l3 else none
      let mb_new := new.rdt_allocation.mb.isSome &&
        decide (cur.rdt_allocation.mb ≠ new.rdt_allocation.mb)
      let changeset_mb := if mb_new then new.rdt_allocation.mb else none
      if l3_new || mb_new then
        (target, some (cur.copy
          { name := new.rdt_allocation.name, l3 := changeset_l3, mb := changeset_mb }))
      else (target, none)

/-- Embedding of `RDTAllocationValue.validate` (owca/resctrl.py:481-501).
The `try` body raises `ValueError` for a missing `"L3:"` prefix, a parse
error, a wrong domain count, or a CBM violation; the `except` handler then
evaluates `self.l3` — an attribute `RDTAllocationValue` does not define
(the dataclass holds `rdt_allocation`, and the `AllocationValue` base
class is a bare capability interface) — so every invalid `l3` ends in an
uncaught `AttributeError` instead of a returned error list. -/
def RDTAllocationValue.validate (v : RDTAllocationValue) : Except PyErr (List String) :=
  if pyTruthy v.rdt_allocation.l3 then
    let l3 := (v.rdt_allocation.l3.getD "").toList
    let body : Except String Unit := do
      if ¬ ("L3:".toList.isPrefixOf l3) then
        throw "l3 resources setting should start with L3: prefix"
      let domains ← parse_schemata_file_row l3
      if domains.length ≠ v.ctx.platform_sockets then
        throw "not enough domains in l3 configuration"
      domains.forM fun p =>
        match check_cbm_bits p.2 v.ctx.rdt_cbm_mask.toList v.ctx.rdt_min_cbm_bits.toList with
        | .ok _ => pure ()
        | .error e => throw e
    match body with
    | .ok _ => .ok []
    | .error _ => .error .attributeError
  else .ok []

/-! ## `clean_taskless_groups` (owca/resctrl.py:338-360) -/

/-- Directory-removal events issued by `clean_taskless_groups`: either a
control-group directory or one monitoring-group directory under it. -/
inductive RmTarget where
  | ctrlDir (ctrl : String)
  | monDir (ctrl mon : String)
  deriving DecidableEq, Repr

/-- Inner loop of `clean_taskless_groups` for one control group: the source
re-creates `mon_groups_to_remove = []` inside the loop over the monitoring
groups, so the list holds at most the current group; `totalMon` is
`len(mon_groups_relation[ctrl_group])`.  `isEmpty ctrl mon` models reading
the monitoring group's tasks file and comparing it with `''`. -/
def cleanCtrlGroup (isEmpty : String → String → Bool) (ctrl : String) (totalMon : Nat) :
    List String → List RmTarget
  | [] => []
  | mon :: rest =>
    let marks : List String := if isEmpty ctrl mon then [mon] else []
    let ops : List RmTarget :=
      if marks.isEmpty then []
      else if ctrl ≠ "" ∧ marks.length = totalMon then [.ctrlDir ctrl]
      else marks.map (fun m => .monDir ctrl m)
    ops ++ cleanCtrlGroup isEmpty ctrl totalMon rest

/-- Embedding of `clean_taskless_groups(mon_groups_relation)`: the relation
is an insertion-ordered dict (association list with distinct keys), and the
result is the ordered list of `rmdir` calls performed. -/
def clean_taskless_groups (relation : List (String × List String))
    (isEmpty : String → String → Bool) : List RmTarget :=
  (relation.map fun p => cleanCtrlGroup isEmpty p.1 p.2.length p.2).flatten

/-! ## `ResGroup.remove_tasks` (owca/resctrl.py:212-233) -/

/-- Filesystem events issued by `ResGroup.remove_tasks`, in order. -/
inductive FsOp where
  | readTasks (mongroup : String)
  | rmdirMongroup (mongroup : String)
  | writeRootTasks (pids : List String)
  deriving DecidableEq, Repr

/-- Embedding of `ResGroup.remove_tasks(mongroup_name)`.  The state is the
set of existing monitoring groups with the pids in their tasks files
(association list keyed by monitoring-group name); the result is the
ordered trace of filesystem operations: nothing when the directory does
not exist, otherwise the source reads the pids, removes the directory, and
then writes the pids to the root group's tasks file. -/
def remove_tasks (mongroups : List (String × List String)) (mongroup_name : String) :
    List FsOp :=
  match mongroups.lookup mongroup_name with
  | none => []
  | some pids =>
    [.readTasks mongroup_name, .rmdirMongroup mongroup_name, .writeRootTasks pids]

/-! ## `ResGroup.get_allocations` and `Container.get_allocations`
(owca/resctrl.py:258-268, owca/containers.py:142-154 and 226-238) -/

/-- Decides whether `needle` occurs as a contiguous substring of `hay`
(Python `needle in hay`). -/
def containsSeq (needle hay : List Char) : Bool :=
  hay.tails.any fun t => needle.isPrefixOf t

/-- Values stored in a `TaskAllocations` dict: the RDT variant produced by
`ResGroup.get_allocations`, or an uninterpreted value coming from
`Cgroup.get_allocations` (whose own structure is irrelevant here). -/
inductive AllocVal where
  | rdt (a : RDTAllocation)
  | cgroupVal (tag : String)
  deriving DecidableEq, Repr

/-- Python `dict.update`: entries of `b` override entries of `a` in place,
new keys are appended in order. -/
def dictUpdate {ν : Type} (a b : List (String × ν)) : List (String × ν) :=
  b.foldl (fun acc p =>
    if acc.any (fun q => q.1 = p.1) then
      acc.map (fun q => if q.1 = p.1 then p else q)
    else acc ++ [p]) a

/-- Body of `ResGroup.get_allocations(resgroup_name)`: folds over the
schemata lines; a line containing `"MB"` (checked first) becomes the
stripped `mb` field, else a line containing `"L3"` becomes the stripped
`l3` field, later lines overriding earlier ones.  (The source assigns the
fields of an already-constructed `RDTAllocation`, a frozen dataclass, so
in Python the first matching line would additionally raise
`FrozenInstanceError`; the fold models the assignments' intent — the body
is in any case unreachable, see `resgroup_get_allocations`.) -/
def rdtFromSchemata (resgroup_name : Option String) (lines : List String) : RDTAllocation :=
  lines.foldl (fun acc line =>
    if containsSeq "MB".toList line.toList then { acc with mb := some line.trim }
    else if containsSeq "L3".toList line.toList then { acc with l3 := some line.trim }
    else acc) { name := resgroup_name, l3 := none, mb := none }

/-- Call model of `ResGroup.get_allocations`: the method signature requires
a positional `resgroup_name`; a call binding no value for it (`arg = none`)
raises `TypeError` before the body runs, exactly as Python does. -/
def resgroup_get_allocations (arg : Option (Option String)) (lines : List String) :
    Except PyErr (List (String × AllocVal)) :=
  match arg with
  | none => .error .typeError
  | some resgroup_name => .ok [("rdt", .rdt (rdtFromSchemata resgroup_name lines))]

/-- Embedding of `Container.get_allocations`: empty map without an
allocation configuration; otherwise the cgroup allocations are merged and,
when RDT is enabled and the resgroup is managed, the resgroup allocations
are fetched through the call `self._resgroup.get_allocations()` — which
passes no `resgroup_name` argument. -/
def container_get_allocations (hasAllocCfg rdt_enabled if_manage_resgroup : Bool)
    (cgroupAllocs : List (String × AllocVal)) (schemataLines : List String) :
    Except PyErr (List (String × AllocVal)) :=
  if !hasAllocCfg then .ok []
  else
    let base := dictUpdate [] cgroupAllocs
    if rdt_enabled && if_manage_resgroup then
      match resgroup_get_allocations none schemataLines with
      | .error e => .error e
      | .ok r => .ok (dictUpdate base r)
    else .ok base

/-- Embedding of `ContainerSet.get_allocations`: same as the container
version but the resgroup branch is guarded by `rdt_enabled` alone, and the
call again passes no `resgroup_name`. -/
def containerSet_get_allocations (hasAllocCfg rdt_enabled : Bool)
    (cgroupAllocs : List (String × AllocVal)) (schemataLines : List String) :
    Except PyErr (List (String × AllocVal)) :=
  if !hasAllocCfg then .ok []
  else
    let base := dictUpdate [] cgroupAllocs
    if rdt_enabled then
      match resgroup_get_allocations none schemataLines with
      | .error e => .error e
      | .ok r => .ok (dictUpdate base r)
    else .ok base

/-! ## `get_measurements` (owca/containers.py:36-43, 99-134, 207-219) -/

/-- A measurement mapping (metric name to numeric value), modelled as an
insertion-ordered association list like a Python dict. -/
abbrev Measurements : Type := List (String × Int)

/-- Key of `MetricName.CPU_USAGE_PER_TASK` (owca/metrics.py). -/
def cpuUsageKey : String := "cpu_usage_per_task"

/-- Whether two measurement dicts have no common key (the `assert` of
`flatten_measurements`). -/
def keysDisjoint (a b : Measurements) : Bool :=
  !(b.any fun p => a.any fun q => q.1 = p.1)

/-- Loop of `flatten_measurements` with the accumulated flat dict:
asserts key disjointness, then updates. -/
def flattenGo : List Measurements → Measurements → Except PyErr Measurements
  | [], acc => .ok acc
  | m :: rest, acc =>
    if keysDisjoint acc m then flattenGo rest (dictUpdate acc m)
    else .error .assertionError

/-- Embedding of `flatten_measurements` (owca/containers.py:36-43). -/
def flatten_measurements (ms : List Measurements) : Except PyErr Measurements :=
  flattenGo ms []

/-- Catch clause `except FileNotFoundError: return {}` shared by
`Container.get_measurements` and `ContainerSet.get_measurements`. -/
def catchFileNotFound (r : Except PyErr Measurements) : Except PyErr Measurements :=
  match r with
  | .error .fileNotFound => .ok []
  | r => r

/-- Embedding of `Container.get_measurements`: the three underlying reads
(cgroup, resgroup — only when RDT is enabled and the resgroup is managed —
and perf counters) run in order inside a `try` whose handler converts
`FileNotFoundError` into an empty mapping; the results are flattened with
the disjointness assertion. -/
def container_get_measurements (rdt_enabled if_manage_resgroup : Bool)
    (cgroupRead resgroupRead perfRead : Except PyErr Measurements) :
    Except PyErr Measurements :=
  catchFileNotFound
    (match cgroupRead with
     | .error e => .error e
     | .ok c =>
       match (if rdt_enabled && if_manage_resgroup then resgroupRead else .ok []) with
       | .error e => .error e
       | .ok r =>
         match perfRead with
         | .error e => .error e
         | .ok p => flatten_measurements [c, r, p])

/-- Per-metric summing merge used by the perf loop of
`ContainerSet.get_measurements`: values of keys already present are added,
new keys are appended. -/
def mergeSum (acc m : Measurements) : Measurements :=
  m.foldl (fun a p =>
    if a.any (fun q => q.1 = p.1) then
      a.map (fun q => if q.1 = p.1 then (q.1, q.2 + p.2) else q)
    else a ++ [p]) acc

/-- Cpu-usage accumulation step of `ContainerSet.get_measurements`: adds
the child's `cpu_usage_per_task` value into the running dict. -/
def addCpuUsage (acc : Measurements) (v : Int) : Measurements :=
  if acc.any (fun q => q.1 = cpuUsageKey) then
    acc.map (fun q => if q.1 = cpuUsageKey then (q.1, q.2 + v) else q)
  else acc ++ [(cpuUsageKey, v)]

/-- Perf-counter loop of `ContainerSet.get_measurements` over the children
(each child contributes its `perf_counters.get_measurements()` result). -/
def csPerfLoop : List (Except PyErr Measurements) → Measurements →
    Except PyErr Measurements
  | [], acc => .ok acc
  | r :: rest, acc =>
    match r with
    | .error e => .error e
    | .ok m => csPerfLoop rest (mergeSum acc m)

/-- Cgroup cpu-usage loop of `ContainerSet.get_measurements` over the
children: reads each child's cgroup measurements and indexes
`cpu_usage_per_task` (a missing key is a Python `KeyError`). -/
def csCpuLoop : List (Except PyErr Measurements) → Measurements →
    Except PyErr Measurements
  | [], acc => .ok acc
  | r :: rest, acc =>
    match r with
    | .error e => .error e
    | .ok m =>
      match m.lookup cpuUsageKey with
      | none => .error .keyError
      | some v => csCpuLoop rest (addCpuUsage acc v)

/-- Embedding of `ContainerSet.get_measurements`: sums the children's perf
measurements, merges the resgroup measurements when RDT is enabled, sums
the children's cgroup cpu usage, and converts a `FileNotFoundError` raised
anywhere in the body into an empty mapping.  `children` carries, per
child, the perf read and the cgroup read. -/
def containerSet_get_measurements (rdt_enabled : Bool)
    (children : List (Except PyErr Measurements × Except PyErr Measurements))
    (resgroupRead : Except PyErr Measurements) : Except PyErr Measurements :=
  catchFileNotFound
    (match csPerfLoop (children.map Prod.fst) [] with
     | .error e => .error e
     | .ok m1 =>
       match (if rdt_enabled then
           (match resgroupRead with
            | .error e => (Except.error e : Except PyErr Measurements)
            | .ok rm => Except.ok (dictUpdate m1 rm))
         else Except.ok m1) with
       | .error e => .error e
       | .ok m2 => csCpuLoop (children.map Prod.snd) m2)

/-! ## `AllocationsDict` merge engine.

Modelled from the spec: the source module `owca/allocations.py` defining
`AllocationsDict` and `BoxedNumeric` is not part of the provided sources
(only its test suite `tests/allocations/test_allocations_dict.py` is), so
the recursive merge is modelled from spec section 4.5: a closed variant of
numeric leaves carrying a comparison tolerance and nodes mapping keys to
sub-values; `calculate_changeset(current)` recurses per key and returns
the target and an optional (absent-able) changeset. -/
inductive AllocUnit where
  | leaf (value : ℚ) (eps : ℚ)
  | node (entries : List (String × AllocUnit))

/-- First value bound to `k` in an association list of allocation
sub-values. -/
def lookupAlloc (k : String) : List (String × AllocUnit) → Option AllocUnit
  | [] => none
  | p :: rest => if p.1 = k then some p.2 else lookupAlloc k rest

mutual
/-- Modelled from the spec (section 4.5): `new.calculate_changeset(current)`
returning `(target, changeset)`.  Leaves compare with their tolerance;
nodes merge per key: keys only in `current` stay in the target, keys only
in `new` enter target and changeset, common keys recurse with a nested
changeset included only when non-empty; the changeset is the absent
sentinel when no key changed at any depth. -/
def allocCalculateChangeset : AllocUnit → AllocUnit → AllocUnit × Option AllocUnit
  | .leaf nv ne, .leaf cv ce =>
    if ne < |nv - cv| then (.leaf nv ne, some (.leaf nv ne))
    else (.leaf cv ce, none)
  | .node ns, .node cs =>
    let r := allocEntriesChangeset ns cs
    let extras := ns.filter fun p => (lookupAlloc p.1 cs).isNone
    let chlist := r.2 ++ extras
    (.node (r.1 ++ extras), if chlist.isEmpty then none else some (.node chlist))
  | n, _ => (n, some n)
termination_by _n c => sizeOf c

/-- Modelled from the spec: per-key recursion of the node case over the
current entries, looking each key up among the new entries; returns the
target entries and the changed entries. -/
def allocEntriesChangeset : List (String × AllocUnit) → List (String × AllocUnit) →
    List (String × AllocUnit) × List (String × AllocUnit)
  | _, [] => ([], [])
  | ns, (k, cv) :: rest =>
    let r := allocEntriesChangeset ns rest
    match lookupAlloc k ns with
    | none => ((k, cv) :: r.1, r.2)
    | some nv =>
      let tc := allocCalculateChangeset nv cv
      ((k, tc.1) :: r.1,
        match tc.2 with
        | none => r.2
        | some c => (k, c) :: r.2)
termination_by _ns cs => sizeOf cs
end

/-- Well-formedness of an allocation tree as Python produces it: every
node's keys are distinct (dict keys) and every leaf tolerance is
nonnegative. -/
inductive AllocWf : AllocUnit → Prop
  | leaf {v e : ℚ} : 0 ≤ e → AllocWf (.leaf v e)
  | node {ns : List (String × AllocUnit)} :
      (ns.map Prod.fst).Nodup → (∀ p ∈ ns, AllocWf p.2) → AllocWf (.node ns)

/-! ## `Container.__init__`, `set_resgroup` and the creation path of
`ContainerManager.sync_containers_state` (owca/containers.py:164-197,
315-336) -/

/-- State of a `Container` relevant to the resgroup-management assertion. -/
structure ContainerSt where
  cgroup_path : String
  resgroup : Option String
  if_manage_resgroup : Bool
  deriving DecidableEq, Repr

/-- Embedding of `Container.__init__`: stores the fields and asserts the
implication `if_manage_resgroup → resgroup is not None`, raising
`AssertionError` when it fails.  The source defaults are `resgroup=None`
and `if_manage_resgroup=True`. -/
def containerInit (cgroup_path : String) (resgroup : Option String)
    (if_manage_resgroup : Bool) : Except PyErr ContainerSt :=
  if if_manage_resgroup ∧ resgroup = none then .error .assertionError
  else .ok ⟨cgroup_path, resgroup, if_manage_resgroup⟩

/-- Embedding of `Container.set_resgroup`: stores the new resgroup and
re-checks the same assertion. -/
def setResgroup (c : ContainerSt) (rg : Option String) : Except PyErr ContainerSt :=
  if c.if_manage_resgroup ∧ rg = none then .error .assertionError
  else .ok { c with resgroup := rg }

/-- Task as seen by `sync_containers_state`: `sub_cgroup_paths = none`
models a task object without that attribute (`hasattr` false). -/
structure PyTask where
  cgroup_path : String
  sub_cgroup_paths : Option (List String)
  deriving DecidableEq, Repr

/-- Result of creating the handle for one new task. -/
inductive ContainerOrSet where
  | single (c : ContainerSt)
  | multi (cgroup_path : String) (children : List ContainerSt)
  deriving DecidableEq, Repr

/-- Embedding of the new-task branch of
`ContainerManager.sync_containers_state`: with `enable_multicontainer`
fixed to `True`, a task with a `sub_cgroup_paths` attribute and a
non-empty `cgroup_path` gets a `ContainerSet` (whose children pass
`if_manage_resgroup=False`); every other task gets
`Container(cgroup_path=..., ...)` with the defaults `resgroup=None` and
`if_manage_resgroup=True`. -/
def syncNewContainer (t : PyTask) : Except PyErr ContainerOrSet :=
  if t.sub_cgroup_paths.isSome ∧ t.cgroup_path ≠ "" then
    match (t.sub_cgroup_paths.getD []).mapM (fun p => containerInit p none false) with
    | .error e => .error e
    | .ok children => .ok (.multi t.cgroup_path children)
  else
    match containerInit t.cgroup_path none true with
    | .error e => .error e
    | .ok c => .ok (.single c)

/-! ## Specification-side descriptions of schemata rows -/

/-- The character sequence of one serialized domain entry `d=v`. -/
def entrySeq (p : List Char × List Char) : List Char := p.1 ++ '=' :: p.2

/-- A schemata row `<prefix>:<d1>=<v1>;...;<dn>=<vn>`. -/
def mkSchemataRow (pfx : List Char) (pairs : List (List Char × List Char)) : List Char :=
  pfx ++ ':' :: joinSep ';' (pairs.map entrySeq)

/-- The domain entries a row is cut into by the parser. -/
def entriesOfRow (line : List Char) : List (List Char) :=
  splitOnChar ';' ((afterFirst ':' line).getD line)

/-- A well-formed domain entry: non-empty, containing an `=`, with
non-empty domain id and value around the first `=`. -/
def goodEntry (e : List Char) : Prop :=
  e ≠ [] ∧ ∃ d v, breakAtFirst '=' e = some (d, v) ∧ d ≠ [] ∧ v ≠ []

/-- The domain id of an entry (text before the first `=`). -/
def domKey (e : List Char) : List Char :=
  match breakAtFirst '=' e with
  | some (d, _) => d
  | none => []

/-- State of the CBM scan after a run of ones has started and not yet
ended: a gap exists when a `0` is later followed by a `1`. -/
def gapAfterOne : List Bool → Bool
  | [] => false
  | true :: rest => gapAfterOne rest
  | false :: rest => rest.any fun b => b

/-- Whether the enabled bits of a binary string fail to form one
contiguous run (a `1` recurs after a run of `1`s has ended). -/
def gapFromStart : List Bool → Bool
  | [] => false
  | true :: rest => gapAfterOne rest
  | false :: rest => gapFromStart rest

/-! ## Theorems.  Split/join/search lemmas -/

theorem splitOnChar_not_mem {c : Char} {e : List Char} (h : c ∉ e) :
    splitOnChar c e = [e] := by
  induction e with
  | nil => rfl
  | cons x xs ih =>
    have hx : x ≠ c := fun hc => h (hc ▸ List.mem_cons_self x xs)
    have hxs : c ∉ xs := fun hm => h (List.mem_cons_of_mem x hm)
    simp only [splitOnChar, if_neg hx, ih hxs]

theorem splitOnChar_append_cons {c : Char} {e : List Char} (t : List Char) (h : c ∉ e) :
    splitOnChar c (e ++ c :: t) = e :: splitOnChar c t := by
  induction e with
  | nil => simp [splitOnChar]
  | cons x xs ih =>
    have hx : x ≠ c := fun hc => h (hc ▸ List.mem_cons_self x xs)
    have hxs : c ∉ xs := fun hm => h (List.mem_cons_of_mem x hm)
    simp only [List.cons_append, splitOnChar, if_neg hx, List.append_eq]
    rw [ih hxs]

theorem splitOnChar_joinSep {c : Char} {parts : List (List Char)} (hne : parts ≠ [])
    (h : ∀ p ∈ parts, c ∉ p) : splitOnChar c (joinSep c parts) = parts := by
  induction parts with
  | nil => exact absurd rfl hne
  | cons e es ih =>
    cases es with
    | nil => exact splitOnChar_not_mem (h e (List.mem_cons_self e []))
    | cons f fs =>
      have step : joinSep c (e :: f :: fs) = e ++ c :: joinSep c (f :: fs) := rfl
      rw [step, splitOnChar_append_cons _ (h e (List.mem_cons_self e _)),
        ih (by simp) (fun p hp => h p (List.mem_cons_of_mem e hp))]

theorem afterFirst_append {c : Char} {p : List Char} (rest : List Char) (h : c ∉ p) :
    afterFirst c (p ++ c :: rest) = some rest := by
  induction p with
  | nil => simp [afterFirst]
  | cons x xs ih =>
    have hx : x ≠ c := fun hc => h (hc ▸ List.mem_cons_self x xs)
    have hxs : c ∉ xs := fun hm => h (List.mem_cons_of_mem x hm)
    simp only [List.cons_append, afterFirst, if_neg hx, List.append_eq]
    exact ih hxs

theorem breakAtFirst_append {c : Char} {d : List Char} (v : List Char) (h : c ∉ d) :
    breakAtFirst c (d ++ c :: v) = some (d, v) := by
  induction d with
  | nil => simp [breakAtFirst]
  | cons x xs ih =>
    have hx : x ≠ c := fun hc => h (hc ▸ List.mem_cons_self x xs)
    have hxs : c ∉ xs := fun hm => h (List.mem_cons_of_mem x hm)
    simp only [List.cons_append, breakAtFirst, if_neg hx, List.append_eq]
    rw [ih hxs]

/-! ## Lemmas about `parseRowEntries` -/

theorem parseRowEntries_ok {pairs : List (List Char × List Char)}
    (hpairs : ∀ p ∈ pairs, p.1 ≠ [] ∧ p.2 ≠ [] ∧ '=' ∉ p.1) :
    ∀ acc : List (List Char × List Char),
      (acc.map Prod.fst ++ pairs.map Prod.fst).Nodup →
      parseRowEntries (pairs.map entrySeq) acc = .ok (acc ++ pairs) := by
  induction pairs with
  | nil => intro acc _; simp [parseRowEntries]
  | cons p rest ih =>
    intro acc hnd
    obtain ⟨d, v⟩ := p
    obtain ⟨hd, hv, hne⟩ := hpairs (d, v) (List.mem_cons_self _ _)
    have hbreak : breakAtFirst '=' (entrySeq (d, v)) = some (d, v) :=
      breakAtFirst_append v hne
    have hdacc : d ∉ acc.map Prod.fst := by
      intro hmem
      have hdisj := (List.nodup_append.mp hnd).2.2
      exact hdisj hmem (by simp)
    have hnonempty : entrySeq (d, v) ≠ [] := by
      simp [entrySeq]
    have hrec := ih (fun q hq => hpairs q (List.mem_cons_of_mem _ hq)) (acc ++ [(d, v)]) (by
      simp only [List.map_append, List.map_cons, List.map_nil, List.append_assoc,
        List.singleton_append] at hnd ⊢
      exact hnd)
    simp only [List.map_cons, parseRowEntries, if_neg hnonempty, hbreak, if_neg hd,
      if_neg hv, if_neg hdacc, hrec]
    simp

theorem parseRowEntries_ok_inv {es : List (List Char)} :
    ∀ {acc m : List (List Char × List Char)}, (acc.map Prod.fst).Nodup →
      parseRowEntries es acc = .ok m →
      (∀ e ∈ es, goodEntry e) ∧ (acc.map Prod.fst ++ es.map domKey).Nodup := by
  induction es with
  | nil => intro acc m hnd _; exact ⟨by simp, by simpa using hnd⟩
  | cons e es ih =>
    intro acc m hnd hok
    by_cases he : e = []
    · simp [parseRowEntries, he] at hok
    · rcases hb : breakAtFirst '=' e with _ | ⟨d, v⟩
      · simp [parseRowEntries, if_neg he, hb] at hok
      · by_cases hd : d = []
        · simp [parseRowEntries, if_neg he, hb, hd] at hok
        · by_cases hv : v = []
          · simp [parseRowEntries, if_neg he, hb, if_neg hd, hv] at hok
          · by_cases hdacc : d ∈ acc.map Prod.fst
            · simp [parseRowEntries, if_neg he, hb, if_neg hd, if_neg hv, hdacc] at hok
            · have hrec : parseRowEntries es (acc ++ [(d, v)]) = .ok m := by
                simpa [parseRowEntries, if_neg he, hb, if_neg hd, if_neg hv,
                  if_neg hdacc] using hok
              have hnd' : ((acc ++ [(d, v)]).map Prod.fst).Nodup := by
                simp only [List.map_append, List.map_cons, List.map_nil]
                exact List.Nodup.append hnd (by simp)
                  (by simpa [List.disjoint_singleton] using hdacc)
              obtain ⟨hgood, hnd2⟩ := ih hnd' hrec
              refine ⟨?_, ?_⟩
              · intro f hf
                rcases List.mem_cons.mp hf with rfl | hf
                · exact ⟨he, d, v, hb, hd, hv⟩
                · exact hgood f hf
              · have : domKey e = d := by simp [domKey, hb]
                simpa [this, List.append_assoc] using hnd2

/-- C4 (amended): a row `<prefix>:<d1>=<v1>;...;<dn>=<vn>` with non-empty,
pairwise-distinct domain ids and non-empty values parses to the mapping of
each domain id to its value; an empty entry, an entry containing no `=`,
an empty domain id, an empty value, or a duplicate domain id raises a
parse error; in particular `"mb:1=20;2=50"` parses to the two-entry dict
and `"mb:1=20;1=30"` raises.  (Amendment: an entry may contain more than
one `=` — it is split at the first one — so only a missing `=` is an
error, not "not exactly one".) -/
theorem C4_parse_schemata_row_amended :
    (∀ (pfx : List Char) (pairs : List (List Char × List Char)),
      ':' ∉ pfx → pairs ≠ [] →
      (∀ p ∈ pairs, p.1 ≠ [] ∧ p.2 ≠ [] ∧ '=' ∉ p.1 ∧ ';' ∉ p.1 ∧ ';' ∉ p.2) →
      (pairs.map Prod.fst).Nodup →
      parse_schemata_file_row (mkSchemataRow pfx pairs) = .ok pairs)
    ∧ (∀ line : List Char, line ≠ [] →
      ((∃ e ∈ entriesOfRow line, ¬ goodEntry e) ∨ ¬ ((entriesOfRow line).map domKey).Nodup) →
      ∃ msg, parse_schemata_file_row line = .error msg)
    ∧ parse_schemata_file_row "mb:1=20;2=50".toList =
      .ok [("1".toList, "20".toList), ("2".toList, "50".toList)]
    ∧ (∃ msg, parse_schemata_file_row "mb:1=20;1=30".toList = .error msg) := by
  refine ⟨?_, ?_, by rfl, ⟨"Conflicting domain id found!", by rfl⟩⟩
  · intro pfx pairs hpfx hne hp hnd
    have hrow_ne : mkSchemataRow pfx pairs ≠ [] := by
      simp [mkSchemataRow]
    have hafter : afterFirst ':' (mkSchemataRow pfx pairs) =
        some (joinSep ';' (pairs.map entrySeq)) := afterFirst_append _ hpfx
    have hsplit : splitOnChar ';' (joinSep ';' (pairs.map entrySeq)) = pairs.map entrySeq := by
      refine splitOnChar_joinSep (by simpa using hne) ?_
      intro part hpart
      obtain ⟨p, hpmem, rfl⟩ := List.mem_map.mp hpart
      obtain ⟨_, _, _, hd, hv⟩ := hp p hpmem
      simp only [entrySeq, List.mem_append, List.mem_cons]
      rintro (hmem | hmem | hmem)
      · exact hd hmem
      · exact absurd hmem.symm (by decide)
      · exact hv hmem
    have hok := parseRowEntries_ok (fun p hp2 => ⟨(hp p hp2).1, (hp p hp2).2.1, (hp p hp2).2.2.1⟩)
      [] (by simpa using hnd)
    simp only [parse_schemata_file_row, if_neg hrow_ne, hafter, Option.getD_some, hsplit]
    simpa using hok
  · intro line hline hbad
    rcases hres : parse_schemata_file_row line with m | msg
    · exact ⟨m, rfl⟩
    · exfalso
      have hrun : parseRowEntries (entriesOfRow line) [] = .ok msg := by
        simpa [parse_schemata_file_row, if_neg hline, entriesOfRow] using hres
      obtain ⟨hgood, hnd⟩ := parseRowEntries_ok_inv (by simp) hrun
      rcases hbad with ⟨e, he, hbe⟩ | hnotnd
      · exact hbe (hgood e he)
      · exact hnotnd (by simpa using hnd)

/-- C4 counterexample: the claim states that an entry that does not
contain exactly one `=` raises a parse error, but the source splits the
entry at its first `=` and accepts it — `"mb:1=2=3"` parses successfully
to `{'1': '2=3'}`. -/
theorem C4_parse_schemata_row_counterexample :
    parse_schemata_file_row "mb:1=2=3".toList = .ok [("1".toList, "2=3".toList)] := by rfl

/-- Witness for C4: the amended round-trip theorem applied to the concrete
row `mb:1=20;2=50`. -/
theorem C4_parse_schemata_row_witness :
    parse_schemata_file_row (mkSchemataRow "mb".toList
      [("1".toList, "20".toList), ("2".toList, "50".toList)]) =
      .ok [("1".toList, "20".toList), ("2".toList, "50".toList)] :=
  C4_parse_schemata_row_amended.1 "mb".toList
    [("1".toList, "20".toList), ("2".toList, "50".toList)]
    (by decide) (by decide) (by decide) (by decide)

/-! ## Lemmas about the CBM scan -/

theorem anyId_false_iff {l : List Bool} : (l.any fun b => b) = false ↔ l.count true = 0 := by
  induction l with
  | nil => simp
  | cons b rest ih => cases b <;> simp [List.count_cons, ih]

theorem cbmLoop_finished {bits : List Bool} : ∀ {c m : Nat},
    cbmLoop bits c true false = .ok m ↔ bits.count true = 0 ∧ m = c := by
  induction bits with
  | nil => intro c m; simp [cbmLoop, eq_comm]
  | cons b rest ih =>
    intro c m
    cases b
    · simpa [cbmLoop, List.count_cons] using ih
    · simp [cbmLoop, List.count_cons]

theorem cbmLoop_after_one {bits : List Bool} : ∀ {c m : Nat},
    cbmLoop bits c false true = .ok m ↔
      gapAfterOne bits = false ∧ m = c + bits.count true := by
  induction bits with
  | nil => intro c m; simp [cbmLoop, gapAfterOne, eq_comm]
  | cons b rest ih =>
    intro c m
    cases b
    · rw [show cbmLoop (false :: rest) c false true = cbmLoop rest c true false from rfl]
      rw [cbmLoop_finished]
      simp only [gapAfterOne, List.count_cons, if_neg]
      constructor
      · rintro ⟨hcnt, rfl⟩
        exact ⟨anyId_false_iff.mpr hcnt, by simp [hcnt]⟩
      · rintro ⟨hany, rfl⟩
        have hcnt := anyId_false_iff.mp hany
        exact ⟨hcnt, by simp [hcnt]⟩
    · rw [show cbmLoop (true :: rest) c false true = cbmLoop rest (c + 1) false true from rfl]
      rw [ih]
      simp only [gapAfterOne, List.count_cons_self]
      constructor
      · rintro ⟨hg, rfl⟩; exact ⟨hg, by omega⟩
      · rintro ⟨hg, rfl⟩; exact ⟨hg, by omega⟩

theorem cbmLoop_start {bits : List Bool} : ∀ {c m : Nat},
    cbmLoop bits c false false = .ok m ↔
      gapFromStart bits = false ∧ m = c + bits.count true := by
  induction bits with
  | nil => intro c m; simp [cbmLoop, gapFromStart, eq_comm]
  | cons b rest ih =>
    intro c m
    cases b
    · rw [show cbmLoop (false :: rest) c false false = cbmLoop rest c false false from rfl]
      rw [ih]
      simp [gapFromStart, List.count_cons]
    · rw [show cbmLoop (true :: rest) c false false = cbmLoop rest (c + 1) false true from rfl]
      rw [cbmLoop_after_one]
      simp only [gapFromStart, List.count_cons_self]
      constructor
      · rintro ⟨hg, rfl⟩; exact ⟨hg, by omega⟩
      · rintro ⟨hg, rfl⟩; exact ⟨hg, by omega⟩

theorem gapAfterOne_iff_sublist {r : List Bool} :
    gapAfterOne r = true ↔ [false, true].Sublist r := by
  induction r with
  | nil => simp [gapAfterOne]
  | cons b rest ih =>
    cases b
    · simp only [gapAfterOne]
      constructor
      · intro hany
        obtain ⟨x, hx, hxt⟩ := List.any_eq_true.mp hany
        have : x = true := hxt
        subst this
        exact List.Sublist.cons₂ false (List.singleton_sublist.mpr hx)
      · intro h
        have htrue : true ∈ false :: rest := h.subset (by simp)
        have : true ∈ rest := by simpa using htrue
        exact List.any_eq_true.mpr ⟨true, this, rfl⟩
    · simp only [gapAfterOne]
      rw [ih]
      constructor
      · intro h; exact h.cons true
      · intro h
        cases h with
        | cons _ h' => exact h'

theorem gapFromStart_iff_sublist {r : List Bool} :
    gapFromStart r = true ↔ [true, false, true].Sublist r := by
  induction r with
  | nil => simp [gapFromStart]
  | cons b rest ih =>
    cases b
    · simp only [gapFromStart]
      rw [ih]
      constructor
      · intro h; exact h.cons false
      · intro h
        cases h with
        | cons _ h' => exact h'
    · simp only [gapFromStart]
      rw [gapAfterOne_iff_sublist]
      constructor
      · intro h; exact List.Sublist.cons₂ true h
      · intro h
        cases h with
        | cons _ h' =>
          exact ((List.sublist_cons_self true [false, true]).trans h')
        | cons₂ _ h' => exact h'

/-- C5: `check_cbm_bits(mask, cbm_mask, min_cbm_bits)` accepts exactly the
hexadecimal masks whose value does not exceed the maximal mask, whose
enabled bits in the binary representation form a single contiguous run
(no `1` recurs after the run ended, i.e. the binary string has no
subsequence `1,0,1`), and whose run length (count of ones) is at least the
minimum; in particular mask `"3"` with maximum `"f"` and minimum `"1"`
passes, and mask `"5"` (binary `101`) is rejected for its gap whatever the
minimum bit count is. -/
theorem C5_check_cbm_bits :
    (∀ (mask cbm_mask min_cbm_bits : List Char) (m cbm mn : Nat),
      parseHexNat mask = some m → parseHexNat cbm_mask = some cbm →
      parseDecNat min_cbm_bits = some mn →
      (check_cbm_bits mask cbm_mask min_cbm_bits = .ok () ↔
        m ≤ cbm ∧ ¬ [true, false, true].Sublist (binStr m) ∧
          mn ≤ (binStr m).count true))
    ∧ check_cbm_bits "3".toList "f".toList "1".toList = .ok ()
    ∧ (∀ min_cbm_bits : List Char, check_cbm_bits "5".toList "f".toList min_cbm_bits =
        .error "Bit series of ones in mask must occur without a gap between them") := by
  refine ⟨?_, by rfl, fun _ => by rfl⟩
  intro mask cbm_mask min_cbm_bits m cbm mn h1 h2 h3
  simp only [check_cbm_bits, h1, h2, h3]
  by_cases hlt : cbm < m
  · simp only [if_pos hlt]
    constructor
    · intro h; exact absurd h (by simp)
    · rintro ⟨hle, -⟩; omega
  · simp only [if_neg hlt]
    rcases hloop : cbmLoop (binStr m) 0 false false with e | nbits
    · simp only
      constructor
      · intro h; exact absurd h (by simp)
      · rintro ⟨-, hnogap, -⟩
        exfalso
        rcases hgap : gapFromStart (binStr m) with _ | _
        · have h0 := (@cbmLoop_start (binStr m) 0 (0 + (binStr m).count true)).mpr ⟨hgap, rfl⟩
          rw [hloop] at h0
          exact absurd h0 (by simp)
        · exact hnogap (gapFromStart_iff_sublist.mp hgap)
    · obtain ⟨hgap, hcnt⟩ := cbmLoop_start.mp hloop
      simp only
      by_cases hmin : nbits < mn
      · simp only [if_pos hmin]
        constructor
        · intro h; exact absurd h (by simp)
        · rintro ⟨-, -, hge⟩; omega
      · simp only [if_neg hmin]
        refine ⟨fun _ => ⟨by omega, ?_, by omega⟩, fun _ => by trivial⟩
        intro hsub
        rw [← gapFromStart_iff_sublist] at hsub
        rw [hgap] at hsub
        exact absurd hsub (by simp)

/-- Witness for C5: the acceptance characterization applied to mask `"3"`,
maximal mask `"f"` and minimum `"1"`. -/
theorem C5_check_cbm_bits_witness :
    check_cbm_bits "3".toList "f".toList "1".toList = .ok () :=
  (C5_check_cbm_bits.1 "3".toList "f".toList "1".toList 3 15 1 rfl rfl rfl).mpr
    ⟨by norm_num, fun h => absurd h.length_le (by decide), by decide⟩

/-! ## Lemmas about `calculate_changeset` -/

theorem pyOrStr_of_ne_empty {a b : Option String} (h : a ≠ some "") :
    pyOrStr a b = if a.isSome then a else b := by
  cases a with
  | none => rfl
  | some s =>
    have hs : s ≠ "" := fun he => h (by rw [he])
    simp [pyOrStr, hs]

theorem calculate_changeset_merge (new c : RDTAllocationValue)
    (hname : c.rdt_allocation.name = new.rdt_allocation.name) :
    calculate_changeset new (some c) =
      (c.copy
        { name := c.rdt_allocation.name
          l3 := pyOrStr new.rdt_allocation.l3 c.rdt_allocation.l3
          mb := pyOrStr new.rdt_allocation.mb c.rdt_allocation.mb },
       if (new.rdt_allocation.l3.isSome &&
            decide (c.rdt_allocation.l3 ≠ new.rdt_allocation.l3)) ||
          (new.rdt_allocation.mb.isSome &&
            decide (c.rdt_allocation.mb ≠ new.rdt_allocation.mb)) then
         some (c.copy
           { name := new.rdt_allocation.name
             l3 := (if new.rdt_allocation.l3.isSome &&
                 decide (c.rdt_allocation.l3 ≠ new.rdt_allocation.l3) then
                 new.rdt_allocation.l3 else none)
             mb := (if new.rdt_allocation.mb.isSome &&
                 decide (c.rdt_allocation.mb ≠ new.rdt_allocation.mb) then
                 new.rdt_allocation.mb else none) })
       else none) := by
  simp only [calculate_changeset, if_neg (not_not_intro hname)]
  split <;> rfl

/-- C1 (amended): `calculate_changeset(current)` on the new value returns a
full overwrite `(new, new)` when `current` is absent or its group name
differs; with equal names the target's L3/MB fields fall back per field to
the current value when the new field is absent, the changeset keeps
exactly the fields that are present and differ from the current value, and
the changeset is the absent sentinel when neither field changed.
(Amendment: the new value's present fields are assumed to be non-empty
strings — as every schemata line the program produces is — because the
source merges the target with Python `or`, which treats a present-but-empty
string like an absent one.) -/
theorem C1_calculate_changeset_amended (new : RDTAllocationValue)
    (current : Option RDTAllocationValue)
    (h3 : new.rdt_allocation.l3 ≠ some "") (hmb : new.rdt_allocation.mb ≠ some "") :
    (current = none → calculate_changeset new current = (new, some new)) ∧
    (∀ c, current = some c → c.rdt_allocation.name ≠ new.rdt_allocation.name →
      calculate_changeset new current = (new, some new)) ∧
    (∀ c, current = some c → c.rdt_allocation.name = new.rdt_allocation.name →
      ((calculate_changeset new current).1.rdt_allocation.l3 =
        if new.rdt_allocation.l3.isSome then new.rdt_allocation.l3
        else c.rdt_allocation.l3) ∧
      ((calculate_changeset new current).1.rdt_allocation.mb =
        if new.rdt_allocation.mb.isSome then new.rdt_allocation.mb
        else c.rdt_allocation.mb) ∧
      ((calculate_changeset new current).2 = none ↔
        ¬ (new.rdt_allocation.l3.isSome = true ∧
            new.rdt_allocation.l3 ≠ c.rdt_allocation.l3) ∧
        ¬ (new.rdt_allocation.mb.isSome = true ∧
            new.rdt_allocation.mb ≠ c.rdt_allocation.mb)) ∧
      (∀ ch, (calculate_changeset new current).2 = some ch →
        (ch.rdt_allocation.l3 =
          if new.rdt_allocation.l3.isSome = true ∧
              new.rdt_allocation.l3 ≠ c.rdt_allocation.l3 then
            new.rdt_allocation.l3 else none) ∧
        (ch.rdt_allocation.mb =
          if new.rdt_allocation.mb.isSome = true ∧
              new.rdt_allocation.mb ≠ c.rdt_allocation.mb then
            new.rdt_allocation.mb else none))) := by
  refine ⟨?_, ?_, ?_⟩
  · rintro rfl; rfl
  · rintro c rfl hne
    simp [calculate_changeset, hne]
  · rintro c rfl hname
    rw [calculate_changeset_merge new c hname]
    have hl3cond : (new.rdt_allocation.l3.isSome &&
        decide (c.rdt_allocation.l3 ≠ new.rdt_allocation.l3)) = true ↔
        (new.rdt_allocation.l3.isSome = true ∧
          new.rdt_allocation.l3 ≠ c.rdt_allocation.l3) := by
      simp [ne_comm]
    have hmbcond : (new.rdt_allocation.mb.isSome &&
        decide (c.rdt_allocation.mb ≠ new.rdt_allocation.mb)) = true ↔
        (new.rdt_allocation.mb.isSome = true ∧
          new.rdt_allocation.mb ≠ c.rdt_allocation.mb) := by
      simp [ne_comm]
    have hl3 := pyOrStr_of_ne_empty (b := c.rdt_allocation.l3) h3
    have hmb2 := pyOrStr_of_ne_empty (b := c.rdt_allocation.mb) hmb
    have hpos1 := hl3cond.mp
    have hpos2 := hmbcond.mp
    have hneg1 : (new.rdt_allocation.l3.isSome &&
        decide (c.rdt_allocation.l3 ≠ new.rdt_allocation.l3)) = false →
        ¬ (new.rdt_allocation.l3.isSome = true ∧
          new.rdt_allocation.l3 ≠ c.rdt_allocation.l3) :=
      fun hb hp => by
        have ht := hl3cond.mpr hp
        rw [hb] at ht
        exact absurd ht (by decide)
    have hneg2 : (new.rdt_allocation.mb.isSome &&
        decide (c.rdt_allocation.mb ≠ new.rdt_allocation.mb)) = false →
        ¬ (new.rdt_allocation.mb.isSome = true ∧
          new.rdt_allocation.mb ≠ c.rdt_allocation.mb) :=
      fun hb hp => by
        have ht := hmbcond.mpr hp
        rw [hb] at ht
        exact absurd ht (by decide)
    refine ⟨by simp [RDTAllocationValue.copy, hl3],
      by simp [RDTAllocationValue.copy, hmb2], ?_, ?_⟩
    · rcases h1b : (new.rdt_allocation.l3.isSome &&
          decide (c.rdt_allocation.l3 ≠ new.rdt_allocation.l3)) with _ | _
      · rcases h2b : (new.rdt_allocation.mb.isSome &&
            decide (c.rdt_allocation.mb ≠ new.rdt_allocation.mb)) with _ | _
        · simp [h1b, h2b, hneg1 h1b, hneg2 h2b]
        · simp [h1b, h2b, hpos2 h2b]
      · rcases h2b : (new.rdt_allocation.mb.isSome &&
            decide (c.rdt_allocation.mb ≠ new.rdt_allocation.mb)) with _ | _
        · simp [h1b, h2b, hpos1 h1b]
        · simp [h1b, h2b, hpos1 h1b]
    · intro ch hch
      simp at hch
      obtain ⟨-, hch2⟩ := hch
      rw [← hch2]
      constructor
      · simp only [RDTAllocationValue.copy]
        by_cases hp : new.rdt_allocation.l3.isSome = true ∧
            new.rdt_allocation.l3 ≠ c.rdt_allocation.l3
        · rw [if_pos ⟨hp.1, fun h => hp.2 h.symm⟩, if_pos hp]
        · rw [if_neg (fun hq => hp ⟨hq.1, fun h => hq.2 h.symm⟩), if_neg hp]
      · simp only [RDTAllocationValue.copy]
        by_cases hp : new.rdt_allocation.mb.isSome = true ∧
            new.rdt_allocation.mb ≠ c.rdt_allocation.mb
        · rw [if_pos ⟨hp.1, fun h => hp.2 h.symm⟩, if_pos hp]
        · rw [if_neg (fun hq => hp ⟨hq.1, fun h => hq.2 h.symm⟩), if_neg hp]

/-- C1 counterexample: with equal group names, a new value whose L3 field
is the present-but-empty string `some ""` does not overwrite the current
L3 as the claim requires for a present field: the source merges with
Python `or`, so the target keeps the current `L3:0=f` instead of the new
`""`. -/
theorem C1_calculate_changeset_counterexample :
    (calculate_changeset
        ⟨⟨some "g", some "", none⟩, ⟨"", "", 1, true, "f", "1"⟩, none⟩
        (some ⟨⟨some "g", some "L3:0=f", none⟩,
          ⟨"", "", 1, true, "f", "1"⟩, none⟩)).1.rdt_allocation.l3 =
      some "L3:0=f" ∧
    ((calculate_changeset
        ⟨⟨some "g", some "", none⟩, ⟨"", "", 1, true, "f", "1"⟩, none⟩
        (some ⟨⟨some "g", some "L3:0=f", none⟩,
          ⟨"", "", 1, true, "f", "1"⟩, none⟩)).1.rdt_allocation.l3 ≠
      (if (some "" : Option String).isSome then (some "" : Option String)
       else some "L3:0=f")) := by
  constructor
  · rfl
  · intro h
    exact absurd h (by decide)

/-- Witness for C1: the amended changeset theorem applied to a concrete
merge of `L3:0=3` over a current allocation `L3:0=f`/`MB:0=50` with equal
group names. -/
theorem C1_calculate_changeset_witness :
    (calculate_changeset
        ⟨⟨some "g", some "L3:0=3", none⟩, ⟨"", "", 1, true, "f", "1"⟩, none⟩
        (some ⟨⟨some "g", some "L3:0=f", some "MB:0=50"⟩,
          ⟨"", "", 1, true, "f", "1"⟩, none⟩)).1.rdt_allocation.l3 =
      some "L3:0=3" := by
  have h := (C1_calculate_changeset_amended
      ⟨⟨some "g", some "L3:0=3", none⟩, ⟨"", "", 1, true, "f", "1"⟩, none⟩
      (some ⟨⟨some "g", some "L3:0=f", some "MB:0=50"⟩,
        ⟨"", "", 1, true, "f", "1"⟩, none⟩)
      (by decide) (by decide)).2.2
      ⟨⟨some "g", some "L3:0=f", some "MB:0=50"⟩, ⟨"", "", 1, true, "f", "1"⟩, none⟩
      rfl rfl
  simpa using h.1

/-- C2 (code bug): with control group `c` holding two monitoring groups
that are both empty, `clean_taskless_groups` removes the two
monitoring-group directories individually and never removes the
control-group directory — the claim (and the source's own comment "drop
just ctrl group if all mon groups are empty") requires the control group
to be removed.  The source resets `mon_groups_to_remove` inside the loop
over monitoring groups, so the all-empty comparison `len(...) ==
len(mon_groups_relation[ctrl_group])` only ever sees one marked group and
the control group is dropped only when it has exactly one (empty)
monitoring group, as the third conjunct shows; the root group, as claimed,
is never removed (fourth conjunct). -/
theorem C2_clean_taskless_groups_bug :
    clean_taskless_groups [("c", ["m1", "m2"])] (fun _ _ => true) =
      [.monDir "c" "m1", .monDir "c" "m2"] ∧
    RmTarget.ctrlDir "c" ∉ clean_taskless_groups [("c", ["m1", "m2"])] (fun _ _ => true) ∧
    clean_taskless_groups [("c", ["m"])] (fun _ _ => true) = [.ctrlDir "c"] ∧
    clean_taskless_groups [("", ["m"])] (fun _ _ => true) = [.monDir "" "m"] := by
  exact ⟨rfl, by decide, rfl, rfl⟩

/-- C3 (code bug): `validate()` raises instead of returning the error
list: whenever the L3 field violates a rule (here a missing `"L3:"`
prefix, and a CBM run shorter than the minimum), the `except ValueError`
handler evaluates `self.l3`, an attribute the `RDTAllocationValue`
dataclass does not define, so the call ends in an uncaught
`AttributeError`; only a valid or absent L3 field returns (the empty)
error list. -/
theorem C3_validate_bug :
    RDTAllocationValue.validate
      ⟨⟨some "g", some "bad", none⟩, ⟨"", "", 1, true, "f", "1"⟩, none⟩ =
      .error .attributeError ∧
    RDTAllocationValue.validate
      ⟨⟨some "g", some "L3:0=3", none⟩, ⟨"", "", 1, true, "f", "3"⟩, none⟩ =
      .error .attributeError ∧
    RDTAllocationValue.validate
      ⟨⟨some "g", none, none⟩, ⟨"", "", 1, true, "f", "1"⟩, none⟩ = .ok [] ∧
    RDTAllocationValue.validate
      ⟨⟨some "g", some "L3:0=3", none⟩, ⟨"", "", 1, true, "f", "1"⟩, none⟩ = .ok [] := by
  exact ⟨rfl, rfl, rfl, rfl⟩

/-- C6 (amended): `remove_tasks(mongroup_name)` is a no-op when the
monitoring-group directory does not exist; otherwise it reads the
residual pids from the group's tasks file, removes the monitoring-group
directory, and then writes the pids back to the root group's tasks file.
(Amendment: the directory is removed before, not after, the pids are
migrated to the root group.) -/
theorem C6_remove_tasks_amended :
    ∀ (mongroups : List (String × List String)) (mongroup_name : String),
      (mongroups.lookup mongroup_name = none → remove_tasks mongroups mongroup_name = []) ∧
      (∀ pids, mongroups.lookup mongroup_name = some pids →
        remove_tasks mongroups mongroup_name =
          [.readTasks mongroup_name, .rmdirMongroup mongroup_name,
           .writeRootTasks pids]) := by
  intro mongroups mongroup_name
  constructor
  · intro h; simp [remove_tasks, h]
  · intro pids h; simp [remove_tasks, h]

/-- C6 counterexample: the claim's order — read, write the pids to the
root tasks file, then remove the directory — is not the trace the source
produces: the `rmdir` comes before the root-group write. -/
theorem C6_remove_tasks_counterexample :
    remove_tasks [("m", ["7"])] "m" =
      [.readTasks "m", .rmdirMongroup "m", .writeRootTasks ["7"]] ∧
    remove_tasks [("m", ["7"])] "m" ≠
      [.readTasks "m", .writeRootTasks ["7"], .rmdirMongroup "m"] := by
  exact ⟨rfl, by decide⟩

/-- Witness for C6: the amended theorem applied to an absent directory and
to a monitoring group holding pid 7. -/
theorem C6_remove_tasks_witness :
    remove_tasks ([] : List (String × List String)) "m" = [] ∧
    remove_tasks [("m", ["7"])] "m" =
      [.readTasks "m", .rmdirMongroup "m", .writeRootTasks ["7"]] :=
  ⟨(C6_remove_tasks_amended [] "m").1 rfl,
   (C6_remove_tasks_amended [("m", ["7"])] "m").2 ["7"] rfl⟩

/-- C7 (code bug): without an allocation configuration `get_allocations`
returns the empty map, but with one and RDT enabled both
`Container.get_allocations` and `ContainerSet.get_allocations` call
`self._resgroup.get_allocations()` with no argument while
`ResGroup.get_allocations(self, resgroup_name)` requires one, so the call
raises `TypeError` instead of returning the merged map. -/
theorem C7_get_allocations_bug :
    container_get_allocations false true true [("cpu_quota", .cgroupVal "q")]
      ["L3:0=f", "MB:0=100"] = .ok [] ∧
    container_get_allocations true true true [("cpu_quota", .cgroupVal "q")]
      ["L3:0=f", "MB:0=100"] = .error .typeError ∧
    containerSet_get_allocations true true [("cpu_quota", .cgroupVal "q")]
      ["L3:0=f", "MB:0=100"] = .error .typeError := by
  exact ⟨rfl, rfl, rfl⟩

/-! ## Lemmas about `get_measurements` -/

theorem csPerfLoop_ok {l : List (Except PyErr Measurements)}
    (h : ∀ r ∈ l, ∃ m, r = .ok m) : ∀ acc, ∃ m, csPerfLoop l acc = .ok m := by
  induction l with
  | nil => intro acc; exact ⟨acc, rfl⟩
  | cons r rest ih =>
    intro acc
    obtain ⟨m, rfl⟩ := h r (List.mem_cons_self r rest)
    exact ih (fun q hq => h q (List.mem_cons_of_mem _ hq)) (mergeSum acc m)

theorem csPerfLoop_fnf {l : List (Except PyErr Measurements)}
    (h : ∀ r ∈ l, r = .error .fileNotFound ∨ ∃ m, r = .ok m)
    (hf : ∃ r ∈ l, r = .error .fileNotFound) :
    ∀ acc, csPerfLoop l acc = .error .fileNotFound := by
  induction l with
  | nil => obtain ⟨r, hr, _⟩ := hf; exact absurd hr (List.not_mem_nil r)
  | cons r rest ih =>
    intro acc
    rcases h r (List.mem_cons_self r rest) with hr | ⟨m, hm⟩
    · rw [hr]; rfl
    · subst hm
      obtain ⟨q, hq, hqe⟩ := hf
      rcases List.mem_cons.mp hq with rfl | hq
      · exact absurd hqe (by simp)
      · exact ih (fun p hp => h p (List.mem_cons_of_mem _ hp)) ⟨q, hq, hqe⟩
          (mergeSum acc m)

theorem csCpuLoop_ok {l : List (Except PyErr Measurements)}
    (h : ∀ r ∈ l, ∃ m, r = .ok m ∧ (m.lookup cpuUsageKey).isSome) :
    ∀ acc, ∃ m, csCpuLoop l acc = .ok m := by
  induction l with
  | nil => intro acc; exact ⟨acc, rfl⟩
  | cons r rest ih =>
    intro acc
    obtain ⟨m, rfl, hk⟩ := h r (List.mem_cons_self r rest)
    obtain ⟨v, hv⟩ := Option.isSome_iff_exists.mp hk
    have step : csCpuLoop (Except.ok m :: rest) acc =
        csCpuLoop rest (addCpuUsage acc v) := by
      simp [csCpuLoop, hv]
    rw [step]
    exact ih (fun q hq => h q (List.mem_cons_of_mem _ hq)) (addCpuUsage acc v)

theorem csCpuLoop_fnf {l : List (Except PyErr Measurements)}
    (h : ∀ r ∈ l, r = .error .fileNotFound ∨
      ∃ m, r = .ok m ∧ (m.lookup cpuUsageKey).isSome)
    (hf : ∃ r ∈ l, r = .error .fileNotFound) :
    ∀ acc, csCpuLoop l acc = .error .fileNotFound := by
  induction l with
  | nil => obtain ⟨r, hr, _⟩ := hf; exact absurd hr (List.not_mem_nil r)
  | cons r rest ih =>
    intro acc
    rcases h r (List.mem_cons_self r rest) with hr | ⟨m, hm, hk⟩
    · rw [hr]; rfl
    · subst hm
      obtain ⟨v, hv⟩ := Option.isSome_iff_exists.mp hk
      have step : csCpuLoop (Except.ok m :: rest) acc =
          csCpuLoop rest (addCpuUsage acc v) := by
        simp [csCpuLoop, hv]
      rw [step]
      obtain ⟨q, hq, hqe⟩ := hf
      rcases List.mem_cons.mp hq with rfl | hq
      · exact absurd hqe (by simp)
      · exact ih (fun p hp => h p (List.mem_cons_of_mem _ hp)) ⟨q, hq, hqe⟩
          (addCpuUsage acc v)

/-- C8: if any underlying read that `get_measurements` performs fails with
`FileNotFoundError` (and no read fails in any other way, and every
successful child cgroup read holds the cpu-usage key), the call returns
the empty measurement mapping instead of propagating the error — for
`Container` (first part) and for `ContainerSet` (second part). -/
theorem C8_get_measurements_empty_on_missing_file :
    (∀ (rdt manage : Bool) (cg res perf : Except PyErr Measurements),
      (cg = .error .fileNotFound ∨ ∃ m, cg = .ok m) →
      (res = .error .fileNotFound ∨ ∃ m, res = .ok m) →
      (perf = .error .fileNotFound ∨ ∃ m, perf = .ok m) →
      (cg = .error .fileNotFound ∨
        (rdt = true ∧ manage = true ∧ res = .error .fileNotFound) ∨
        perf = .error .fileNotFound) →
      container_get_measurements rdt manage cg res perf = .ok [])
    ∧ (∀ (rdt : Bool) (children : List (Except PyErr Measurements × Except PyErr Measurements))
        (res : Except PyErr Measurements),
      (∀ ch ∈ children, (ch.1 = .error .fileNotFound ∨ ∃ m, ch.1 = .ok m) ∧
        (ch.2 = .error .fileNotFound ∨
          ∃ m, ch.2 = .ok m ∧ (m.lookup cpuUsageKey).isSome)) →
      (res = .error .fileNotFound ∨ ∃ m, res = .ok m) →
      ((∃ ch ∈ children, ch.1 = .error .fileNotFound ∨ ch.2 = .error .fileNotFound) ∨
        (rdt = true ∧ res = .error .fileNotFound)) →
      containerSet_get_measurements rdt children res = .ok []) := by
  constructor
  · intro rdt manage cg res perf hcg hres hperf hany
    rcases hany with h | ⟨hrdt, hman, h⟩ | h
    · subst h; rfl
    · subst hrdt; subst hman; subst h
      rcases hcg with h1 | ⟨m1, h1⟩ <;> subst h1 <;> rfl
    · subst h
      rcases hcg with h1 | ⟨m1, h1⟩
      · subst h1; rfl
      · subst h1
        cases rdt
        · rfl
        · cases manage
          · rfl
          · rcases hres with h2 | ⟨m2, h2⟩ <;> subst h2 <;> rfl
  · intro rdt children res hch hres hany
    by_cases hpf : ∃ r ∈ children.map Prod.fst, r = Except.error PyErr.fileNotFound
    · have hallp : ∀ r ∈ children.map Prod.fst,
          r = .error .fileNotFound ∨ ∃ m, r = .ok m := by
        intro r hr
        obtain ⟨ch, hmem, rfl⟩ := List.mem_map.mp hr
        exact (hch ch hmem).1
      have hperf := csPerfLoop_fnf hallp hpf []
      simp only [containerSet_get_measurements, hperf]
      rfl
    · have hallp : ∀ r ∈ children.map Prod.fst, ∃ m, r = .ok m := by
        intro r hr
        obtain ⟨ch, hmem, rfl⟩ := List.mem_map.mp hr
        rcases (hch ch hmem).1 with hr1 | hok
        · exact absurd ⟨ch.1, List.mem_map.mpr ⟨ch, hmem, rfl⟩, hr1⟩ hpf
        · exact hok
      obtain ⟨m1, hm1⟩ := csPerfLoop_ok hallp []
      have hcpu_fnf : (∃ ch ∈ children, ch.1 = Except.error PyErr.fileNotFound ∨
          ch.2 = Except.error PyErr.fileNotFound) →
          ∀ acc, csCpuLoop (children.map Prod.snd) acc = .error .fileNotFound := by
        intro hex
        obtain ⟨ch, hmem, hfe⟩ := hex
        rcases hfe with hfe | hfe
        · exact absurd ⟨ch.1, List.mem_map.mpr ⟨ch, hmem, rfl⟩, hfe⟩ hpf
        · refine csCpuLoop_fnf ?_ ⟨ch.2, List.mem_map.mpr ⟨ch, hmem, rfl⟩, hfe⟩
          intro r hr
          obtain ⟨ch', hmem', rfl⟩ := List.mem_map.mp hr
          exact (hch ch' hmem').2
      cases rdt
      · rcases hany with hex | ⟨hfalse, -⟩
        · have hcpu := hcpu_fnf hex m1
          simp only [containerSet_get_measurements, hm1]
          show catchFileNotFound (csCpuLoop (children.map Prod.snd) m1) = Except.ok []
          rw [hcpu]; rfl
        · exact absurd hfalse (by simp)
      · rcases hres with hr | ⟨mr, hr⟩
        · subst hr
          simp only [containerSet_get_measurements, hm1]
          rfl
        · subst hr
          rcases hany with hex | ⟨-, hfe⟩
          · have hcpu := hcpu_fnf hex (dictUpdate m1 mr)
            simp only [containerSet_get_measurements, hm1]
            show catchFileNotFound
              (csCpuLoop (children.map Prod.snd) (dictUpdate m1 mr)) = Except.ok []
            rw [hcpu]; rfl
          · exact absurd hfe (by simp)

/-- Witness for C8: a container whose resgroup read hits
`FileNotFoundError`, and a container set with one child whose cgroup read
hits it, both return the empty mapping. -/
theorem C8_get_measurements_witness :
    container_get_measurements true true (.ok []) (.error .fileNotFound) (.ok [])
      = .ok [] ∧
    containerSet_get_measurements true
      [(Except.ok [("instructions", (5 : Int))], Except.error PyErr.fileNotFound)]
      (.ok []) = .ok [] := by
  constructor
  · exact C8_get_measurements_empty_on_missing_file.1 true true _ _ _
      (Or.inr ⟨[], rfl⟩) (Or.inl rfl) (Or.inr ⟨[], rfl⟩)
      (Or.inr (Or.inl ⟨rfl, rfl, rfl⟩))
  · refine C8_get_measurements_empty_on_missing_file.2 true _ _ ?_ (Or.inr ⟨[], rfl⟩) ?_
    · intro ch hc
      rw [List.mem_singleton] at hc
      subst hc
      exact ⟨Or.inr ⟨[("instructions", (5 : Int))], rfl⟩, Or.inl rfl⟩
    · exact Or.inl ⟨_, List.mem_singleton.mpr rfl, Or.inr rfl⟩

/-- C10: with `if_manage_resgroup` true (its default) a `Container` only
constructs / accepts a `set_resgroup` when the resgroup is not `None`
(parts 1-2); constructing one without a resgroup and default
`if_manage_resgroup` fails the assertion (part 3); and that is exactly the
path `sync_containers_state` takes when it creates the container for a new
single-cgroup task — the construction raises `AssertionError` (part 4). -/
theorem C10_container_resgroup_assertion :
    (∀ (p : String) (rg : Option String) (c : ContainerSt),
      containerInit p rg true = .ok c → rg.isSome) ∧
    (∀ (c : ContainerSt) (rg : Option String) (c' : ContainerSt),
      c.if_manage_resgroup = true → setResgroup c rg = .ok c' → rg.isSome) ∧
    (∀ p : String, containerInit p none true = .error .assertionError) ∧
    (∀ t : PyTask, t.sub_cgroup_paths = none →
      syncNewContainer t = .error .assertionError) := by
  refine ⟨?_, ?_, ?_, ?_⟩
  · intro p rg c h
    rcases rg with _ | v
    · simp [containerInit] at h
    · rfl
  · intro c rg c' hm h
    rcases rg with _ | v
    · simp [setResgroup, hm] at h
    · rfl
  · intro p; rfl
  · intro t ht
    simp [syncNewContainer, ht, containerInit]

/-- Witness for C10: the container-creation path of
`sync_containers_state` on a concrete single-cgroup task fails the
resgroup assertion. -/
theorem C10_container_resgroup_assertion_witness :
    syncNewContainer ⟨"/t1", none⟩ = .error .assertionError :=
  C10_container_resgroup_assertion.2.2.2 ⟨"/t1", none⟩ rfl

/-! ## Lemmas about the modelled `AllocationsDict` merge -/

theorem lookupAlloc_isSome_of_mem {k : String} {v : AllocUnit}
    {ns : List (String × AllocUnit)} (h : (k, v) ∈ ns) :
    (lookupAlloc k ns).isSome := by
  induction ns with
  | nil => exact absurd h (List.not_mem_nil _)
  | cons p rest ih =>
    by_cases hp : p.1 = k
    · simp [lookupAlloc, hp]
    · rcases List.mem_cons.mp h with rfl | h
      · exact absurd rfl hp
      · simpa [lookupAlloc, hp] using ih h

theorem lookupAlloc_eq_of_mem_nodup {k : String} {v : AllocUnit}
    {ns : List (String × AllocUnit)} (hnd : (ns.map Prod.fst).Nodup)
    (h : (k, v) ∈ ns) : lookupAlloc k ns = some v := by
  induction ns with
  | nil => exact absurd h (List.not_mem_nil _)
  | cons p rest ih =>
    rcases List.mem_cons.mp h with rfl | h
    · simp [lookupAlloc]
    · have hp : p.1 ≠ k := by
        intro he
        have : k ∈ rest.map Prod.fst := List.mem_map.mpr ⟨(k, v), h, rfl⟩
        rw [List.map_cons] at hnd
        exact (List.nodup_cons.mp hnd).1 (he ▸ this)
      have hnd' : (rest.map Prod.fst).Nodup := by
        rw [List.map_cons] at hnd
        exact (List.nodup_cons.mp hnd).2
      simpa [lookupAlloc, hp] using ih hnd' h

theorem allocEntriesChangeset_self_snd (ns : List (String × AllocUnit)) :
    ∀ cs : List (String × AllocUnit),
      (∀ p ∈ cs, lookupAlloc p.1 ns = some p.2 ∧
        (allocCalculateChangeset p.2 p.2).2 = none) →
      (allocEntriesChangeset ns cs).2 = [] := by
  intro cs
  induction cs with
  | nil => intro _; simp [allocEntriesChangeset]
  | cons p rest ih =>
    intro h
    obtain ⟨hlook, hch⟩ := h p (List.mem_cons_self p rest)
    obtain ⟨k, cv⟩ := p
    simp only [allocEntriesChangeset, hlook, hch]
    exact ih fun q hq => h q (List.mem_cons_of_mem _ hq)

theorem allocCalculateChangeset_self_bounded :
    ∀ (N : Nat) (X : AllocUnit), sizeOf X ≤ N → AllocWf X →
      (allocCalculateChangeset X X).2 = none := by
  intro N
  induction N with
  | zero =>
    intro X hX _
    exfalso
    cases X <;> simp at hX
  | succ N ih =>
    intro X hX hwf
    cases hwf with
    | leaf he =>
      rename_i v e
      simp [allocCalculateChangeset, sub_self, abs_zero, not_lt.mpr he]
    | node hnd hsub =>
      rename_i ns
      have hent : (allocEntriesChangeset ns ns).2 = [] := by
        apply allocEntriesChangeset_self_snd
        intro p hp
        refine ⟨lookupAlloc_eq_of_mem_nodup hnd hp, ?_⟩
        have h1 : sizeOf p < sizeOf ns := List.sizeOf_lt_of_mem hp
        have h2 : sizeOf p.2 < sizeOf p := by
          obtain ⟨a, b⟩ := p
          simp
        have h3 : sizeOf (AllocUnit.node ns) = 1 + sizeOf ns := by simp
        exact ih p.2 (by omega) (hsub p hp)
      have hext : ns.filter (fun p => (lookupAlloc p.1 ns).isNone) = [] := by
        apply List.filter_eq_nil_iff.mpr
        intro p hp
        obtain ⟨a, b⟩ := p
        have hs := lookupAlloc_isSome_of_mem hp
        simp only [Option.isNone_iff_eq_none]
        intro hnone
        rw [hnone] at hs
        simp at hs
      simp [allocCalculateChangeset, hent, hext]

/-- C9 (spec-modelled): the nested allocation merge is idempotent — for
every well-formed allocation tree `X` (distinct keys per node,
nonnegative leaf tolerances), `X.calculate_changeset(X)` yields the
absent-sentinel changeset, not a present-but-empty container. -/
theorem C9_allocations_dict_idempotent (X : AllocUnit) (hwf : AllocWf X) :
    (allocCalculateChangeset X X).2 = none :=
  allocCalculateChangeset_self_bounded (sizeOf X) X le_rfl hwf

/-- Witness for C9: idempotence applied to the two-level tree
`{'t1': {'a': 2}}` with leaf tolerance `1/100`. -/
theorem C9_allocations_dict_idempotent_witness :
    (allocCalculateChangeset
      (.node [("t1", .node [("a", .leaf 2 (1/100))])])
      (.node [("t1", .node [("a", .leaf 2 (1/100))])])).2 = none := by
  refine C9_allocations_dict_idempotent _ ?_
  refine AllocWf.node (by simp) ?_
  intro p hp
  rw [List.mem_singleton] at hp
  subst hp
  refine AllocWf.node (by simp) ?_
  intro q hq
  rw [List.mem_singleton] at hq
  subst hq
  exact AllocWf.leaf (by norm_num)

example :
    allocCalculateChangeset
      (.node [("t1", .node [("b", .leaf 2 1)]), ("t2", .node [("b", .leaf 3 1)])])
      (.node [("t1", .node [("a", .leaf 1 1)])]) =
    (.node [("t1", .node [("a", .leaf 1 1), ("b", .leaf 2 1)]),
            ("t2", .node [("b", .leaf 3 1)])],
     some (.node [("t1", .node [("b", .leaf 2 1)]),
                  ("t2", .node [("b", .leaf 3 1)])])) := by
  simp [allocCalculateChangeset, allocEntriesChangeset, lookupAlloc]
